import Mathlib

/-!
Verification of the go-gptcli conversation core (main.go): the session
state, request-message assembly, retry/backoff executor, streaming
accumulator, and the REPL round-trip logic, shallowly embedded in Lean.
Durations are modelled in integer milliseconds (Go's time.Duration is an
int64 count of nanoseconds; every duration in this program is a whole
number of milliseconds).
-/

namespace GptCli

/-- Role of a conversation turn.  In main.go `Turn.Role` is a string, but
the only values ever constructed (addUser, addAssistant) are "user" and
"assistant", matching the repository data model, so it is embedded as a
two-constructor enumeration. -/
inductive Role
  | user
  | assistant
deriving DecidableEq

/-- A conversation turn (main.go `Turn`, lines 207-210). -/
structure Turn where
  role : Role
  content : String
deriving DecidableEq

/-- The session state (main.go `Session`, lines 212-216): the system
instruction is kept apart from the turn history, and the output format is
a string. -/
structure Session where
  System : String
  Turns : List Turn
  Format : String
deriving DecidableEq

/-- Embeds `Session.addSystem` (main.go line 218): trims and stores the
system instruction. -/
def Session.addSystem (s : Session) (sys : String) : Session :=
  { s with System := sys.trim }

/-- Embeds `Session.addUser` (main.go line 219). -/
def Session.addUser (s : Session) (u : String) : Session :=
  { s with Turns := s.Turns ++ [⟨Role.user, u⟩] }

/-- Embeds `Session.addAssistant` (main.go line 220). -/
def Session.addAssistant (s : Session) (a : String) : Session :=
  { s with Turns := s.Turns ++ [⟨Role.assistant, a⟩] }

/-- A request message for the chat API, reduced to its tag and content
(the SDK union `ChatCompletionMessageParamUnion` restricted to the three
constructors main.go uses). -/
inductive Message
  | system (content : String)
  | user (content : String)
  | assistant (content : String)
deriving DecidableEq

/-- The synthesized strict-JSON system instruction (main.go line 237). -/
def jsonStrictInstruction : String :=
  "Responda SOMENTE um objeto JSON válido, sem texto extra."

/-- The role-tagged message a stored turn is mapped to (the switch in
main.go lines 239-246). -/
def turnToMessage (t : Turn) : Message :=
  match t.role with
  | Role.user => Message.user t.content
  | Role.assistant => Message.assistant t.content

/-- Embeds `Session.messagesForAPI` (main.go lines 231-248): start from the
empty slice, append the system instruction when non-empty, append the
strict-JSON instruction when jsonMode is set, then append the mapped turns
one by one (the Go for-loop becomes a left fold of appends). -/
def Session.messagesForAPI (s : Session) (jsonMode : Bool) : List Message :=
  let msgs : List Message := []
  let msgs := if s.System ≠ "" then msgs ++ [Message.system s.System] else msgs
  let msgs := if jsonMode then msgs ++ [Message.system jsonStrictInstruction] else msgs
  s.Turns.foldl (fun acc t => acc ++ [turnToMessage t]) msgs

/-- Retry policy constants used by withRetries (main.go lines 257-267), in
milliseconds. -/
def baseDelayMs : ℤ := 500

/-- The backoff cap of 8 seconds (main.go line 266), in milliseconds. -/
def maxDelayMs : ℤ := 8000

/-- The jitter range of 250 milliseconds (main.go line 169). -/
def jitterRangeMs : ℤ := 250

/-- The jitter summand of `randJitter` (main.go lines 165-171): one random
byte reduced modulo 250, in milliseconds.  The byte read from the random
source is the explicit input. -/
def randJitterMs (b : Fin 256) : ℤ := ((b.val % 250 : ℕ) : ℤ)

/-- Embeds `randJitter` (main.go lines 165-171): the given duration plus
the jitter derived from the random byte. -/
def randJitter (d : ℤ) (b : Fin 256) : ℤ := d + randJitterMs b

/-- One update of the backoff variable after a sleep (main.go lines
265-268): double it and clamp to 8 seconds. -/
def nextBackoff (b : ℤ) : ℤ :=
  let d := 2 * b
  if d > maxDelayMs then maxDelayMs else d

/-- The value of the backoff variable when the sleep after the failure of
attempt i (0-based) happens: it starts at 500ms (main.go line 257) and is
updated after every sleep. -/
def backoffMs : ℕ → ℤ
  | 0 => baseDelayMs
  | i + 1 => nextBackoff (backoffMs i)

/-- The full delay slept after the failure of attempt i, given the random
byte drawn for the jitter (main.go line 264: `time.Sleep(randJitter(backoff))`). -/
def sleepDelayMs (i : ℕ) (b : Fin 256) : ℤ := randJitter (backoffMs i) b

/-- Embeds the loop of `withRetries` (main.go lines 256-271) over an
explicit state σ threaded through the effectful operation: `fuel` is the
number of attempts left, `calls` the number of invocations already made,
`err` the error of the last failed invocation (Go's `err` variable, `none`
initially).  On success it returns immediately; otherwise it retries and
finally returns the last error.  The result carries the final state, the
final error, and the total number of invocations. -/
def withRetriesAux {σ ε : Type} (f : ℕ → σ → σ × Option ε) :
    ℕ → ℕ → Option ε → σ → σ × Option ε × ℕ
  | 0, calls, err, s => (s, err, calls)
  | fuel + 1, calls, _, s =>
    let r := f calls s
    match r.2 with
    | none => (r.1, none, calls + 1)
    | some e => withRetriesAux f fuel (calls + 1) (some e) r.1

/-- Embeds `withRetries` (main.go lines 252-272): an attempts bound below 1
is normalized to 1 (lines 253-255), then the loop runs.  The sleeping
between attempts is time-only and does not affect the returned value, so it
is not part of the value-level embedding (its delays are modelled by
sleepDelayMs). -/
def withRetries {σ ε : Type} (attempts : ℤ) (f : ℕ → σ → σ × Option ε)
    (s : σ) : σ × Option ε × ℕ :=
  let a := if attempts < 1 then 1 else attempts
  withRetriesAux f a.toNat 0 none s

/-- The retry executor specialized to an operation without interesting
state: `eff i` is the outcome of the (i+1)-th invocation (`none` =
success).  Returns the final error and the number of invocations. -/
def retryExec {ε : Type} (attempts : ℤ) (eff : ℕ → Option ε) : Option ε × ℕ :=
  (withRetries attempts (fun i _ => ((), eff i)) ()).2

/-- One streamed chunk, reduced to the delta contents of its choices
(main.go lines 296-305 only ever read `chunk.Choices[0].Delta.Content`). -/
structure StreamChunk where
  choices : List String
deriving DecidableEq

/-- A finite streaming response: the arrived chunks in order and the
terminal signal of the stream (`stream.Err()`, main.go line 308). -/
structure ChatStream (ε : Type) where
  chunks : List StreamChunk
  terminalErr : Option ε

/-- One iteration of the accumulation loop in `streamOnce` (main.go lines
296-306): a chunk with no choices is skipped, and a non-empty first delta
is appended to the builder. -/
def accumChunk (acc : String) (c : StreamChunk) : String :=
  match c.choices with
  | [] => acc
  | d :: _ => if d ≠ "" then acc ++ d else acc

/-- The value returned by `streamOnce`'s accumulation (main.go lines
295-311): fold the chunks into the builder, then return the terminal error
if the stream ended abnormally (with the empty string, line 309), else the
accumulated text. -/
def streamOnceResult {ε : Type} (st : ChatStream ε) : Except ε String :=
  let built := st.chunks.foldl accumChunk ""
  match st.terminalErr with
  | some e => Except.error e
  | none => Except.ok built

/-- The fragments of a stream in arrival order: the first delta of every
chunk that has a choice. -/
def fragmentsOf {ε : Type} (st : ChatStream ε) : List String :=
  st.chunks.filterMap (fun c => c.choices.head?)

/-- Models Go's strings.ToLower on the ASCII range (which covers every
format keyword the program compares against): lower-case every character. -/
def lowerString (s : String) : String := ⟨s.data.map Char.toLower⟩

/-- Embeds the `/format` branch of the REPL (main.go lines 633-644): the
argument is lowercased, values other than text/markdown/json are rejected
with a diagnostic and the session is left untouched, otherwise the
lowercased value is stored. -/
def setFormat (s : Session) (value : String) : Session × Option String :=
  let f := lowerString value
  if f ≠ "text" ∧ f ≠ "markdown" ∧ f ≠ "json" then
    (s, some "formato inválido")
  else
    ({ s with Format := f }, none)

/-- The json-mode flag computed at the top of `streamOnce` (main.go line
279): the session format, lowercased, equals "json". -/
def streamJsonMode (s : Session) : Bool := lowerString s.Format == "json"

/-- The message sequence `streamOnce` sends (main.go line 282). -/
def streamMessages (s : Session) : List Message :=
  s.messagesForAPI (streamJsonMode s)

/-- Embeds the no-context rollback inlined in the REPL call (main.go lines
684-689, named `rollbackLastRoundTrip` in the design): drop the last turn
if it is an assistant turn, then drop the last remaining turn if it is a
user turn; each step is skipped when the expected turn is absent. -/
def rollbackLastRoundTrip (s : Session) : Session :=
  let t1 :=
    match s.Turns.getLast? with
    | some t => if t.role = Role.assistant then s.Turns.dropLast else s.Turns
    | none => s.Turns
  let t2 :=
    match t1.getLast? with
    | some t => if t.role = Role.user then t1.dropLast else t1
    | none => t1
  { s with Turns := t2 }

/-- One invocation of the REPL `call` closure (main.go lines 674-692),
with the outcome of `streamOnce` supplied explicitly: on error the session
is untouched and the error returned; on success the assistant reply is
appended (context mode) or the round-trip is rolled back (no-context
mode). -/
def replCall {ε : Type} (noContext : Bool) (resp : Except ε String)
    (s : Session) : Session × Option ε :=
  match resp with
  | Except.error e => (s, some e)
  | Except.ok r =>
    if !noContext then (s.addAssistant r, none)
    else (rollbackLastRoundTrip s, none)

/-- One full REPL round-trip for a user line (main.go lines 672-696): the
user turn is appended first, then the call runs under `withRetries` with 4
attempts; `results i` is the outcome of `streamOnce` on the (i+1)-th
attempt. -/
def replRoundTrip {ε : Type} (noContext : Bool) (results : ℕ → Except ε String)
    (s : Session) (line : String) : Session × Option ε × ℕ :=
  withRetries 4 (fun i st => replCall noContext (results i) st) (s.addUser line)

/-- The system-instruction part of the assembled request: present exactly
when the instruction is non-empty. -/
def systemPart (s : Session) : List Message :=
  if s.System ≠ "" then [Message.system s.System] else []

/-- The synthesized strict-JSON part of the assembled request: present
exactly when json mode is requested. -/
def jsonPart (jsonMode : Bool) : List Message :=
  if jsonMode then [Message.system jsonStrictInstruction] else []

/-- Concatenation of a fragment list in order (an empty fragment
contributes nothing). -/
def concatFragments : List String → String
  | [] => ""
  | f :: fs => f ++ concatFragments fs

theorem foldl_append_turnToMessage (l : List Turn) :
    ∀ init : List Message,
      l.foldl (fun acc t => acc ++ [turnToMessage t]) init =
        init ++ l.map turnToMessage := by
  induction l with
  | nil => intro init; simp
  | cons t ts ih => intro init; simp [ih]

theorem messagesForAPI_eq (s : Session) (jsonMode : Bool) :
    s.messagesForAPI jsonMode =
      systemPart s ++ jsonPart jsonMode ++ s.Turns.map turnToMessage := by
  by_cases h1 : s.System = "" <;> by_cases h2 : jsonMode <;>
    simp [Session.messagesForAPI, systemPart, jsonPart,
      foldl_append_turnToMessage, h1, h2]

/-- C3: for every session state and every jsonMode flag, the request built
by messagesForAPI is exactly the system instruction (when non-empty), then
the synthesized strict-JSON instruction (iff jsonMode), then every stored
turn in insertion order mapped to a role-tagged message. -/
theorem c3_messages_assembly (s : Session) (jsonMode : Bool) :
    s.messagesForAPI jsonMode =
      systemPart s ++ jsonPart jsonMode ++ s.Turns.map turnToMessage :=
  messagesForAPI_eq s jsonMode

theorem foldl_accumChunk_eq (chunks : List StreamChunk) :
    ∀ acc : String,
      chunks.foldl accumChunk acc =
        acc ++ concatFragments (chunks.filterMap fun c => c.choices.head?) := by
  induction chunks with
  | nil => intro acc; simp [concatFragments]
  | cons c cs ih =>
    intro acc
    cases hc : c.choices with
    | nil => simp [accumChunk, hc, ih, concatFragments]
    | cons d rest =>
      by_cases hd : d = ""
      · simp [accumChunk, hc, hd, ih, concatFragments]
      · simp [accumChunk, hc, hd, ih, concatFragments, String.append_assoc]

/-- C4: if the stream terminates without error, streamOnce returns the
concatenation of all fragments in arrival order (empty fragments
contributing nothing); if the terminal signal is an error, it returns that
error and no partial text, however many fragments already arrived. -/
theorem c4_stream_accumulation {ε : Type} (st : ChatStream ε) :
    (st.terminalErr = none →
      streamOnceResult st = Except.ok (concatFragments (fragmentsOf st))) ∧
    (∀ e, st.terminalErr = some e → streamOnceResult st = Except.error e) := by
  constructor
  · intro h
    simp [streamOnceResult, h, fragmentsOf, foldl_accumChunk_eq]
  · intro e h
    simp [streamOnceResult, h]

theorem c4_witness :
    streamOnceResult (ε := String)
        ⟨[⟨["ab"]⟩, ⟨[]⟩, ⟨["", "x"]⟩, ⟨["cd"]⟩], none⟩ = Except.ok "abcd" ∧
    streamOnceResult (ε := String) ⟨[⟨["ab"]⟩], some "boom"⟩ =
      Except.error "boom" := by
  constructor
  · have h := (c4_stream_accumulation (ε := String)
      ⟨[⟨["ab"]⟩, ⟨[]⟩, ⟨["", "x"]⟩, ⟨["cd"]⟩], none⟩).1 rfl
    rw [h]; rfl
  · exact (c4_stream_accumulation ⟨[⟨["ab"]⟩], some "boom"⟩).2 "boom" rfl

theorem getLast?_append_pair (l : List Turn) (x y : Turn) :
    (l ++ [x, y]).getLast? = some y := by
  rw [show l ++ [x, y] = (l ++ [x]) ++ [y] by simp, List.getLast?_concat]

theorem dropLast_append_pair (l : List Turn) (x y : Turn) :
    (l ++ [x, y]).dropLast = l ++ [x] := by
  rw [show l ++ [x, y] = (l ++ [x]) ++ [y] by simp, List.dropLast_concat]

theorem exists_dropLast_rest (l : List Turn) : ∃ r, l = l.dropLast ++ r := by
  induction l using List.reverseRecOn with
  | nil => exact ⟨[], rfl⟩
  | append_singleton xs x ih => exact ⟨[x], by simp⟩

theorem rollback_turns_cases (s : Session) :
    (rollbackLastRoundTrip s).Turns = s.Turns ∨
    (rollbackLastRoundTrip s).Turns = s.Turns.dropLast ∨
    (rollbackLastRoundTrip s).Turns = s.Turns.dropLast.dropLast := by
  unfold rollbackLastRoundTrip
  cases h1 : s.Turns.getLast? with
  | none =>
    simp only [h1]
    cases h2 : s.Turns.getLast? <;> simp_all
  | some t =>
    by_cases ha : t.role = Role.assistant
    · simp only [h1, ha, if_pos]
      cases h2 : s.Turns.dropLast.getLast? with
      | none => simp_all
      | some t2 =>
        by_cases hu : t2.role = Role.user
        · simp_all
        · simp_all
    · simp only [h1, ha, if_neg]
      cases h2 : s.Turns.getLast? with
      | none => simp_all
      | some t2 =>
        by_cases hu : t2.role = Role.user
        · simp_all
        · simp_all

/-- C5: rollbackLastRoundTrip removes the most recent turn when it is an
assistant turn, then the most recent remaining turn when it is a user
turn; each step is skipped when the expected turn is absent (including an
empty history); the system instruction, the format, and all earlier turns
are unchanged; in particular a history ending in user(A), assistant(B)
loses exactly those two turns. -/
theorem c5_rollback_spec (sys fmt A B : String) (pre : List Turn) :
    rollbackLastRoundTrip ⟨sys, pre ++ [⟨Role.user, A⟩, ⟨Role.assistant, B⟩], fmt⟩ =
      ⟨sys, pre, fmt⟩ ∧
    rollbackLastRoundTrip ⟨sys, pre ++ [⟨Role.user, A⟩], fmt⟩ = ⟨sys, pre, fmt⟩ ∧
    rollbackLastRoundTrip
        ⟨sys, pre ++ [⟨Role.assistant, A⟩, ⟨Role.assistant, B⟩], fmt⟩ =
      ⟨sys, pre ++ [⟨Role.assistant, A⟩], fmt⟩ ∧
    rollbackLastRoundTrip ⟨sys, [], fmt⟩ = ⟨sys, [], fmt⟩ ∧
    (∀ s : Session,
      (rollbackLastRoundTrip s).System = s.System ∧
      (rollbackLastRoundTrip s).Format = s.Format ∧
      ∃ rest, s.Turns = (rollbackLastRoundTrip s).Turns ++ rest) := by
  refine ⟨?_, ?_, ?_, ?_, ?_⟩
  · simp [rollbackLastRoundTrip, getLast?_append_pair, dropLast_append_pair,
      List.getLast?_concat, List.dropLast_concat]
  · simp [rollbackLastRoundTrip, List.getLast?_concat, List.dropLast_concat]
  · simp [rollbackLastRoundTrip, getLast?_append_pair, dropLast_append_pair,
      List.getLast?_concat, List.dropLast_concat]
  · simp [rollbackLastRoundTrip]
  · intro s
    refine ⟨rfl, rfl, ?_⟩
    rcases rollback_turns_cases s with h | h | h
    · exact ⟨[], by simp [h]⟩
    · obtain ⟨r, hr⟩ := exists_dropLast_rest s.Turns
      exact ⟨r, by rw [h]; exact hr⟩
    · obtain ⟨r1, hr1⟩ := exists_dropLast_rest s.Turns
      obtain ⟨r2, hr2⟩ := exists_dropLast_rest s.Turns.dropLast
      exact ⟨r2 ++ r1, by rw [h, ← List.append_assoc, ← hr2, ← hr1]⟩

theorem retryAux_pure_success {ε : Type} (eff : ℕ → Option ε) :
    ∀ (k fuel i : ℕ) (e0 : Option ε), k < fuel →
      (∀ j, j < k → (eff (i + j)).isSome) → eff (i + k) = none →
      withRetriesAux (fun n _ => ((), eff n)) fuel i e0 () =
        ((), none, i + k + 1) := by
  intro k
  induction k with
  | zero =>
    intro fuel i e0 hk _ hsucc
    simp only [Nat.add_zero] at hsucc
    cases fuel with
    | zero => omega
    | succ m => simp [withRetriesAux, hsucc]
  | succ k ih =>
    intro fuel i e0 hk hfail hsucc
    cases fuel with
    | zero => omega
    | succ m =>
      have h0 : (eff i).isSome := by
        have := hfail 0 (Nat.succ_pos k)
        simpa using this
      obtain ⟨e, he⟩ := Option.isSome_iff_exists.mp h0
      have hfail1 : ∀ j, j < k → (eff (i + 1 + j)).isSome := by
        intro j hj
        have := hfail (j + 1) (by omega)
        have hidx : i + (j + 1) = i + 1 + j := by omega
        rwa [hidx] at this
      have hsucc1 : eff (i + 1 + k) = none := by
        have hidx : i + (k + 1) = i + 1 + k := by omega
        rwa [hidx] at hsucc
      have hrec := ih m (i + 1) (some e) (by omega) hfail1 hsucc1
      have hidx2 : i + 1 + k + 1 = i + (k + 1) + 1 := by omega
      rw [hidx2] at hrec
      simpa [withRetriesAux, he] using hrec

theorem retryAux_pure_allfail {ε : Type} (eff : ℕ → Option ε) :
    ∀ (fuel i : ℕ) (e0 : Option ε), 1 ≤ fuel →
      (∀ j, j < fuel → (eff (i + j)).isSome) →
      withRetriesAux (fun n _ => ((), eff n)) fuel i e0 () =
        ((), eff (i + fuel - 1), i + fuel) := by
  intro fuel
  induction fuel with
  | zero => intro i e0 h; omega
  | succ m ih =>
    intro i e0 _ hfail
    have h0 : (eff i).isSome := by
      have := hfail 0 (by omega)
      simpa using this
    obtain ⟨e, he⟩ := Option.isSome_iff_exists.mp h0
    cases m with
    | zero => simp [withRetriesAux, he]
    | succ m1 =>
      have hfail1 : ∀ j, j < m1 + 1 → (eff (i + 1 + j)).isSome := by
        intro j hj
        have := hfail (j + 1) (by omega)
        have hidx : i + (j + 1) = i + 1 + j := by omega
        rwa [hidx] at this
      have hrec := ih (i + 1) (some e) (by omega) hfail1
      have hidx1 : i + 1 + (m1 + 1) - 1 = i + (m1 + 1 + 1) - 1 := by omega
      have hidx2 : i + 1 + (m1 + 1) = i + (m1 + 1 + 1) := by omega
      rw [hidx1, hidx2] at hrec
      simpa [withRetriesAux, he] using hrec

theorem retryExec_norm {ε : Type} (n : ℕ) (hn : 1 ≤ n) (eff : ℕ → Option ε) :
    retryExec (n : ℤ) eff =
      (withRetriesAux (fun i _ => ((), eff i)) n 0 none ()).2 := by
  unfold retryExec withRetries
  have hlt : ¬((n : ℤ) < 1) := by exact_mod_cast not_lt.mpr (by exact_mod_cast hn)
  rw [if_neg hlt]
  simp

/-- C2: for every operation and every attempts bound n at least 1, if the
operation fails on its first k invocations and succeeds on invocation k+1
with k below n, the retry executor returns success having invoked the
operation exactly k+1 times; if the operation fails on every invocation,
it is invoked exactly n times and the executor returns the error of the
final (n-th) invocation. -/
theorem c2_withRetries_spec {ε : Type} (n : ℕ) (hn : 1 ≤ n)
    (eff : ℕ → Option ε) :
    (∀ k, k < n → (∀ j, j < k → (eff j).isSome) → eff k = none →
      retryExec (n : ℤ) eff = (none, k + 1)) ∧
    ((∀ j, j < n → (eff j).isSome) →
      retryExec (n : ℤ) eff = (eff (n - 1), n)) := by
  constructor
  · intro k hk hfail hsucc
    rw [retryExec_norm n hn eff]
    have := retryAux_pure_success eff k n 0 none hk
      (fun j hj => by simpa using hfail j hj) (by simpa using hsucc)
    rw [this]
    simp
  · intro hfail
    rw [retryExec_norm n hn eff]
    have := retryAux_pure_allfail eff n 0 none hn
      (fun j hj => by simpa using hfail j hj)
    rw [this]
    simp

theorem c2_witness :
    retryExec (ε := ℕ) 2 (fun j => if j = 0 then some 7 else none) = (none, 2) ∧
    retryExec (ε := ℕ) 2 (fun j => some j) = (some 1, 2) := by
  constructor
  · exact (c2_withRetries_spec 2 (by norm_num)
      (fun j => if j = 0 then some 7 else none)).1 1 (by norm_num)
      (by decide) (by decide)
  · exact (c2_withRetries_spec 2 (by norm_num) (fun j => some j)).2 (by decide)

theorem retryAux_calls_ge {σ ε : Type} (f : ℕ → σ → σ × Option ε) :
    ∀ (fuel i : ℕ) (e0 : Option ε) (s : σ), 1 ≤ fuel →
      i + 1 ≤ (withRetriesAux f fuel i e0 s).2.2 := by
  intro fuel
  induction fuel with
  | zero => intro i e0 s h; omega
  | succ m ih =>
    intro i e0 s _
    simp only [withRetriesAux]
    cases h : (f i s).2 with
    | none => simp
    | some e =>
      simp only
      cases m with
      | zero => simp [withRetriesAux]
      | succ m1 =>
        have := ih (i + 1) (some e) (f i s).1 (by omega)
        omega

/-- C9: for every attempts argument, including zero and negative values,
the wrapped operation is invoked at least once; an attempts value below 1
is normalized to 1, so withRetries with such an argument behaves exactly
like withRetries with 1. -/
theorem c9_at_least_one_call {σ ε : Type} (attempts : ℤ)
    (f : ℕ → σ → σ × Option ε) (s : σ) :
    1 ≤ (withRetries attempts f s).2.2 ∧
    (attempts < 1 → withRetries attempts f s = withRetries 1 f s) := by
  constructor
  · unfold withRetries
    have hfuel : 1 ≤ (if attempts < 1 then 1 else attempts).toNat := by
      split <;> omega
    have := retryAux_calls_ge f
      ((if attempts < 1 then (1 : ℤ) else attempts).toNat) 0 none s hfuel
    simpa using this
  · intro h
    unfold withRetries
    rw [if_pos h, if_neg (by norm_num : ¬(1 : ℤ) < 1)]

theorem c9_witness :
    1 ≤ (withRetries (σ := Unit) (ε := Unit) 0 (fun _ s => (s, none)) ()).2.2 ∧
    withRetries (σ := Unit) (ε := Unit) 0 (fun _ s => (s, none)) () =
      withRetries 1 (fun _ s => (s, none)) () :=
  ⟨(c9_at_least_one_call 0 (fun _ s => (s, none)) ()).1,
    (c9_at_least_one_call 0 (fun _ s => (s, none)) ()).2 (by norm_num)⟩

theorem backoffMs_closed (i : ℕ) :
    backoffMs i = min (baseDelayMs * 2 ^ i) maxDelayMs := by
  induction i with
  | zero => simp [backoffMs, baseDelayMs, maxDelayMs]
  | succ n ih =>
    rw [show backoffMs (n + 1) = nextBackoff (backoffMs n) from rfl, ih,
      nextBackoff]
    simp only [baseDelayMs, maxDelayMs]
    have h2 : (500 : ℤ) * 2 ^ (n + 1) = 2 * (500 * 2 ^ n) := by ring
    rw [h2]
    rcases le_or_lt ((500 : ℤ) * 2 ^ n) 8000 with h | h
    · rw [min_eq_left h]
      split
      · next hgt => rw [min_eq_right (by linarith)]
      · next hle => rw [min_eq_left (by linarith)]
    · rw [min_eq_right (le_of_lt h), if_pos (by norm_num),
        min_eq_right (by linarith)]

theorem randJitterMs_nonneg (b : Fin 256) : 0 ≤ randJitterMs b :=
  Int.ofNat_nonneg _

theorem randJitterMs_lt (b : Fin 256) : randJitterMs b < jitterRangeMs := by
  unfold randJitterMs jitterRangeMs
  have := Nat.mod_lt b.val (show 0 < 250 by norm_num)
  exact_mod_cast this

/-- C6 (amended): for every attempt index i and every random byte b, the
delay slept before the next retry equals min(baseDelay * 2^i, maxDelay)
plus the jitter derived from b; the jitter lies in [0, jitterRange) and
every value of that interval is attainable; the delay is never negative.
(The jitter is a random byte reduced modulo 250 and is therefore not
exactly uniformly distributed; see the counterexample.) -/
theorem c6_backoff_delay_formula (i : ℕ) (b : Fin 256) :
    sleepDelayMs i b = min (baseDelayMs * 2 ^ i) maxDelayMs + randJitterMs b ∧
    0 ≤ randJitterMs b ∧ randJitterMs b < jitterRangeMs ∧
    (∀ j : Fin 250, ∃ c : Fin 256, randJitterMs c = (j.val : ℤ)) ∧
    0 ≤ sleepDelayMs i b := by
  refine ⟨?_, randJitterMs_nonneg b, randJitterMs_lt b, ?_, ?_⟩
  · unfold sleepDelayMs randJitter
    rw [backoffMs_closed]
  · intro j
    have hj : j.val < 250 := j.isLt
    refine ⟨⟨j.val, by omega⟩, ?_⟩
    unfold randJitterMs
    simp [Nat.mod_eq_of_lt hj]
  · unfold sleepDelayMs randJitter
    have hb : 0 ≤ backoffMs i := by
      rw [backoffMs_closed]
      have h1 : (0 : ℤ) ≤ baseDelayMs * 2 ^ i := by
        unfold baseDelayMs; positivity
      have h2 : (0 : ℤ) ≤ maxDelayMs := by unfold maxDelayMs; norm_num
      exact le_min h1 h2
    have := randJitterMs_nonneg b
    linarith

set_option maxRecDepth 4000 in
theorem c6_jitter_not_uniform :
    (Finset.univ.filter (fun b : Fin 256 => randJitterMs b = 0)).card ≠
    (Finset.univ.filter (fun b : Fin 256 => randJitterMs b = 100)).card := by
  decide

/-- C7: for every attempt index and every choice of jitter bytes, the
computed delays are non-decreasing while the cap has not been reached, and
no delay ever exceeds maxDelay + jitterRange (8s + 250ms). -/
theorem c7_backoff_monotone_bounded (i : ℕ) (b b1 : Fin 256) :
    (backoffMs i < maxDelayMs → sleepDelayMs i b ≤ sleepDelayMs (i + 1) b1) ∧
    sleepDelayMs i b ≤ maxDelayMs + jitterRangeMs := by
  have hjb0 : 0 ≤ randJitterMs b := randJitterMs_nonneg b
  have hjb1 : randJitterMs b < jitterRangeMs := randJitterMs_lt b
  have hjc0 : 0 ≤ randJitterMs b1 := randJitterMs_nonneg b1
  have hjc1 : randJitterMs b1 < jitterRangeMs := randJitterMs_lt b1
  simp only [jitterRangeMs] at hjb1 hjc1
  constructor
  · intro h
    rw [backoffMs_closed] at h
    simp only [baseDelayMs, maxDelayMs] at h
    have hpow : (0 : ℤ) < 2 ^ i := pow_pos (by norm_num) i
    have hone : (1 : ℤ) ≤ 2 ^ i := by omega
    have hx : (500 : ℤ) * 2 ^ i < 8000 := by
      by_contra hc
      push_neg at hc
      rw [min_eq_right hc] at h
      exact lt_irrefl _ h
    have h16 : (2 : ℤ) ^ i < 16 := by nlinarith
    have h8 : (2 : ℤ) ^ i ≤ 8 := by
      by_contra hc
      push_neg at hc
      have h4 : 4 ≤ i := by
        by_contra hc2
        push_neg at hc2
        interval_cases i <;> norm_num at hc
      have : (2 : ℤ) ^ 4 ≤ 2 ^ i := pow_le_pow_right₀ (by norm_num) h4
      norm_num at this
      omega
    unfold sleepDelayMs randJitter
    rw [backoffMs_closed, backoffMs_closed]
    simp only [baseDelayMs, maxDelayMs]
    have e1 : min ((500 : ℤ) * 2 ^ i) 8000 = 500 * 2 ^ i :=
      min_eq_left (by linarith)
    have hdouble : (500 : ℤ) * 2 ^ (i + 1) = 1000 * 2 ^ i := by ring
    have e2 : min ((500 : ℤ) * 2 ^ (i + 1)) 8000 = 1000 * 2 ^ i := by
      rw [hdouble]
      exact min_eq_left (by linarith)
    rw [e1, e2]
    linarith
  · unfold sleepDelayMs randJitter
    rw [backoffMs_closed]
    have h1 : min (baseDelayMs * 2 ^ i) maxDelayMs ≤ maxDelayMs :=
      min_le_right _ _
    simp only [maxDelayMs, jitterRangeMs] at h1 ⊢
    linarith

theorem c7_witness :
    sleepDelayMs 0 0 ≤ sleepDelayMs 1 0 ∧
    sleepDelayMs 0 0 ≤ maxDelayMs + jitterRangeMs :=
  ⟨(c7_backoff_monotone_bounded 0 0 0).1 (by decide),
    (c7_backoff_monotone_bounded 0 0 0).2⟩

theorem setFormat_invalid (s : Session) (v : String)
    (h1 : lowerString v ≠ "text") (h2 : lowerString v ≠ "markdown")
    (h3 : lowerString v ≠ "json") :
    setFormat s v = (s, some "formato inválido") := by
  unfold setFormat
  rw [if_pos ⟨h1, h2, h3⟩]

theorem setFormat_valid (s : Session) (v : String)
    (h : lowerString v = "text" ∨ lowerString v = "markdown" ∨
      lowerString v = "json") :
    setFormat s v = ({ s with Format := lowerString v }, none) := by
  unfold setFormat
  rw [if_neg (by rcases h with h | h | h <;> simp [h])]

/-- C8 (amended): for every input whose lowercasing is outside
text/markdown/json, the /format handler fails with a validation diagnostic
and leaves the session (format, turns, system instruction) completely
unchanged; for every input whose lowercasing is in that set, it succeeds
and stores the lowercased value. -/
theorem c8_setFormat_validation (s : Session) (v : String) :
    (lowerString v ≠ "text" → lowerString v ≠ "markdown" →
      lowerString v ≠ "json" →
      setFormat s v = (s, some "formato inválido")) ∧
    (lowerString v = "text" ∨ lowerString v = "markdown" ∨
        lowerString v = "json" →
      setFormat s v = ({ s with Format := lowerString v }, none)) :=
  ⟨setFormat_invalid s v, setFormat_valid s v⟩

theorem c8_counterexample :
    ¬("JSON" = "text" ∨ "JSON" = "markdown" ∨ "JSON" = "json") ∧
    setFormat ⟨"", [], "text"⟩ "JSON" = (⟨"", [], "json"⟩, none) := by
  constructor
  · decide
  · decide

theorem c8_witness :
    setFormat ⟨"", [], "text"⟩ "xml" =
      (⟨"", [], "text"⟩, some "formato inválido") ∧
    setFormat ⟨"", [], "text"⟩ "MarkDown" = (⟨"", [], "markdown"⟩, none) := by
  constructor
  · exact (c8_setFormat_validation ⟨"", [], "text"⟩ "xml").1
      (by decide) (by decide) (by decide)
  · exact ((c8_setFormat_validation ⟨"", [], "text"⟩ "MarkDown").2
      (Or.inr (Or.inl (by decide)))).trans (by decide)

/-- C10: format handling is case-insensitive: the /format command accepts
any capitalization of text, markdown, or json and stores the lowercased
value, and the synthesized strict-JSON system instruction is part of the
streamed request exactly when the session format, lowercased, equals
"json", regardless of the stored capitalization. -/
theorem c10_format_case_insensitive (s : Session) (v : String) :
    (lowerString v = "text" ∨ lowerString v = "markdown" ∨
        lowerString v = "json" →
      setFormat s v = ({ s with Format := lowerString v }, none)) ∧
    (lowerString s.Format = "json" →
      streamMessages s = systemPart s ++ [Message.system jsonStrictInstruction]
        ++ s.Turns.map turnToMessage) ∧
    (lowerString s.Format ≠ "json" →
      streamMessages s = systemPart s ++ s.Turns.map turnToMessage) := by
  refine ⟨setFormat_valid s v, ?_, ?_⟩
  · intro h
    have hb : streamJsonMode s = true := by
      unfold streamJsonMode
      exact beq_iff_eq.mpr h
    unfold streamMessages
    rw [hb, messagesForAPI_eq]
    simp [jsonPart]
  · intro h
    have hb : streamJsonMode s = false := by
      unfold streamJsonMode
      exact beq_eq_false_iff_ne.mpr h
    unfold streamMessages
    rw [hb, messagesForAPI_eq]
    simp [jsonPart]

theorem c10_witness :
    setFormat ⟨"", [], "text"⟩ "TeXt" = (⟨"", [], "text"⟩, none) ∧
    streamMessages ⟨"", [], "JSON"⟩ = [Message.system jsonStrictInstruction] ∧
    streamMessages ⟨"", [], "text"⟩ = [] := by
  refine ⟨?_, ?_, ?_⟩
  · exact ((c10_format_case_insensitive ⟨"", [], "text"⟩ "TeXt").1
      (Or.inl (by decide))).trans (by decide)
  · exact ((c10_format_case_insensitive ⟨"", [], "JSON"⟩ "x").2.1
      (by decide)).trans (by decide)
  · exact ((c10_format_case_insensitive ⟨"", [], "text"⟩ "x").2.2
      (by decide)).trans (by decide)

/-- C1: in no-context REPL mode a round-trip whose remote call succeeds
leaves the turn list length unchanged (here 0 before and after, with the
system instruction untouched), but a round-trip whose remote call fails on
all 4 retry attempts leaves the appended user turn in the history: the
length grows from 0 to 1, contradicting the claimed net-zero-growth
invariant.  The final error and the 4 invocations are also evaluated. -/
theorem c1_no_context_history_growth :
    (replRoundTrip (ε := String) true (fun _ => Except.ok "olá")
        ⟨"", [], "text"⟩ "oi").1 = ⟨"", [], "text"⟩ ∧
    (replRoundTrip (ε := String) true (fun _ => Except.error "falha")
        ⟨"", [], "text"⟩ "oi").1 =
      ⟨"", [⟨Role.user, "oi"⟩], "text"⟩ ∧
    (replRoundTrip (ε := String) true (fun _ => Except.error "falha")
        ⟨"", [], "text"⟩ "oi").2 = (some "falha", 4) := by
  refine ⟨?_, ?_, ?_⟩ <;> decide

end GptCli
